import Mathlib

/-!
MEVGuard — verification of the bundle-simulation core.

Shallow embedding of the refund calculation, greedy bundle selector,
optimal-combination search, violation detector, status-tracking skip logic,
hex-prefix normaliser and RPC retry loops of the MEVGuard auditor
(`src/bundle_simulation.py`, `src/state_management.py`,
`src/data_gathering.py`), together with theorems settling the spec claims.

Python numbers are modelled as follows: `int` values that are known
non-negative (wei amounts, gas numbers) are `ℕ`; values that flow through
Python `float` arithmetic are modelled in `ℚ` under exact arithmetic (the
IEEE rounding of a `double` is not modelled; where a statement depends on
a float result it does so only through facts that are insensitive to a
relative error far below the gap in question, and this is noted at the
statement).  Python dictionaries with a fixed field set are structures with
`Option` fields for optional keys.  The SQLite tables keyed by
`(bundle_id, block_number)` / `tx_hash` are modelled, for one fixed block,
as functions `String → Option String` from key to recorded status.
-/

namespace MEVGuard

/-- One entry of a `trace_callMany` result list, with the optional
backrun-value component fields consulted by `calculate_refund`.
Absent dictionary keys are `none`. -/
structure TraceTx where
  hash : Option String := none
  gas_used : Option ℕ := none
  effective_gas_price : Option ℕ := none
  builder_reward : Option ℕ := none
  priority_fee : Option ℕ := none
  slippage_protection : Option ℕ := none
deriving DecidableEq

/-- The contribution of one trace entry to `total_backrun_value`:
`gas_used * effective_gas_price` when both keys are present, plus
`builder_reward`, `priority_fee` and `slippage_protection` when present
(lines 281-306 of `bundle_simulation.py`). -/
def txBackrunValue (tx : TraceTx) : ℕ :=
  (match tx.gas_used, tx.effective_gas_price with
    | some g, some p => g * p
    | _, _ => 0)
  + (match tx.builder_reward with | some v => v | none => 0)
  + (match tx.priority_fee with | some v => v | none => 0)
  + (match tx.slippage_protection with | some v => v | none => 0)

/-- Model of `total_backrun_value`, accumulated over the simulation result list. -/
def total_backrun_value (simulation_result : List TraceTx) : ℕ :=
  simulation_result.foldl (fun acc tx => acc + txBackrunValue tx) 0

/-- Model of `calculate_refund`: the source computes `total_backrun_value * 0.9` in
Python float arithmetic (line 309).  The multiplication is modelled by the
exact rational `9/10`; the IEEE double rounding is not modelled (see the
module docstring). -/
def calculate_refund (simulation_result : List TraceTx) : ℚ :=
  (total_backrun_value simulation_result : ℚ) * (9 / 10)

/-- Modelled from the spec: the refund as §4.5.5 of the specification
states it — all arithmetic on 256-bit unsigned integers, the 0.9 scaling
performed as `× 9 ÷ 10`, rounding toward zero. -/
def specRefund (simulation_result : List TraceTx) : ℕ :=
  (simulation_result.foldl (fun acc tx => (acc + txBackrunValue tx) % 2 ^ 256) 0)
    * 9 % 2 ^ 256 / 10

/-! ## Bundles, transactions and `greedy_bundle_selection`
(bundle_simulation.py 30-45) -/

/-- The transaction fields consulted by the simulator
(`hash`, `from`, `bundle_id`, `value`, `gasLimit`, `maxFeePerGas`).
`sender` models the Python `from` key (a Lean keyword); `bundle_id` is
the optional key that `simulate_transaction_bundle` reads with
`tx.get('bundle_id', 'unknown')`. -/
structure Tx where
  hash : Option String := none
  sender : Option String := none
  bundle_id : Option String := none
  value : ℕ := 0
  gasLimit : ℕ := 0
  maxFeePerGas : ℕ := 0
deriving DecidableEq

/-- A candidate bundle: optional explicit `id`, the advisory declared
`refund` from the analytics source (absent key is `none`), and the ordered
transaction list. -/
structure Bundle where
  id : Option String := none
  refund : Option ℚ := none
  transactions : List Tx := []
deriving DecidableEq

instance : Inhabited Bundle := ⟨{}⟩

/-- The sort key `x.get('refund', 0)` of `greedy_bundle_selection`. -/
def refundKey (b : Bundle) : ℚ :=
  match b.refund with
  | some r => r
  | none => 0

/-- The comparison realising Python's stable
`sorted(bundles, key=..., reverse=True)`: `a` may precede `b` iff
`key b ≤ key a`. -/
def greedyLE (a b : Bundle) : Bool :=
  decide (refundKey b ≤ refundKey a)

/-- Model of `greedy_bundle_selection`: sort by declared refund descending with
Python's stable sort, then keep the first `max_selected_bundles`
(the `[:max_selected_bundles]` slice). -/
def greedy_bundle_selection (bundles : List Bundle) (max_selected_bundles : ℕ) :
    List Bundle :=
  if bundles.isEmpty then []
  else (bundles.mergeSort greedyLE).take max_selected_bundles

/-- The selector as the claim states it: attach input positions, sort by
(declared refund descending, position ascending) — i.e. ties broken by
input order — drop the positions, take the first `k`. -/
def selectSpecOrder (a b : ℕ × Bundle) : Bool :=
  decide (refundKey b.2 < refundKey a.2 ∨
    (refundKey a.2 = refundKey b.2 ∧ a.1 ≤ b.1))

/-- Spec-side selector (see `selectSpecOrder`). -/
def selectSpec (bundles : List Bundle) (k : ℕ) : List Bundle :=
  (((bundles.enum).mergeSort selectSpecOrder).map (·.2)).take k

/-- A concrete one-element trace list: `gas_used = 3`,
`effective_gas_price = 1`, all other component fields absent. -/
def c1trace : TraceTx :=
  { hash := some "0xa", gas_used := some 3, effective_gas_price := some 1 }

/-- Model of `detect_violation`: report a violation iff
`highest_refund > actual_refund`, with the difference as amount. -/
def detect_violation (optimal_combination actual_combination : List Bundle)
    (highest_refund actual_refund : ℚ) : Bool × ℚ :=
  if highest_refund > actual_refund then
    (true, highest_refund - actual_refund)
  else (false, 0)

/-- The missed-opportunities list the violation branch logs (line 374):
the bundles of the optimal combination not contained in the actual one. -/
def missed_bundles (optimal_combination actual_combination : List Bundle) :
    List Bundle :=
  optimal_combination.filter
    (fun bundle => decide (bundle ∉ actual_combination))

/-! ## C9 — hex-prefix normalisation (state_management.py 37-44)

Python strings are modelled as `List Char`; `add_hex_prefix_if_missing`
acts on a value that is either a string, an `int`, or anything else
(returned unchanged).  Python's `hex` builtin renders negative integers
as `-0x…`. -/

/-- A Python value as seen by `add_hex_prefix_if_missing`. -/
inductive PyValue where
  | str (s : List Char)
  | int (n : ℤ)
  | other
deriving DecidableEq

/-- The `"0x"` prefix. -/
def hexPrefix : List Char := ['0', 'x']

/-- Python's `hex(n)`: `0x…` for `n ≥ 0` and `-0x…` for `n < 0`. -/
def pyHex (n : ℤ) : List Char :=
  if n < 0 then '-' :: '0' :: 'x' :: Nat.toDigits 16 n.natAbs
  else '0' :: 'x' :: Nat.toDigits 16 n.natAbs

/-- Model of `add_hex_prefix_if_missing`: prepend `"0x"` to a string that lacks
it; serialise an `int` through `hex`; return anything else unchanged. -/
def add_hex_prefix_if_missing : PyValue → PyValue
  | .str s => if hexPrefix.isPrefixOf s then .str s else .str (hexPrefix ++ s)
  | .int n => .str (pyHex n)
  | .other => .other

/-! ## Optimal-combination search (bundle_simulation.py 317-356)

The two external effects of the loop body are parameters: `store` is the
`processed_bundles` table restricted to the current block (recorded
status per `bundle_id`), and `sim` is `simulate_transaction_bundle`
applied to a transaction list (`none` models a `None` return). -/

/-- Model of `itertools.combinations l r` in its enumeration order: the
combinations containing the head (tails in combination order) precede
those avoiding it.  For index lists this is lexicographic order. -/
def combos {α : Type*} : List α → ℕ → List (List α)
  | _, 0 => [[]]
  | [], _ + 1 => []
  | a :: l, r + 1 => ((combos l r).map (a :: ·)) ++ combos l (r + 1)

/-- The enumeration
`for r in range(1, len(bundles) + 1): itertools.combinations(bundles, r)`. -/
def allCombinations (bundles : List Bundle) : List (List Bundle) :=
  (List.range' 1 bundles.length).flatMap (fun r => combos bundles r)

/-- The rows returned by
`SELECT status FROM processed_bundles WHERE bundle_id IN (…) AND block_number=?`:
one recorded status per distinct non-`NULL` id of the combination that is
present in the table (`bundle_id` is part of the primary key; a `None` id
matches no row). -/
def comboStatuses (store : String → Option String)
    (combination : List Bundle) : List String :=
  (((combination.map Bundle.id).reduceOption).dedup).filterMap store

/-- The skip test of lines 337-343: skip iff the fetched status list is
non-empty and every fetched status is `'simulated'`. -/
def comboSkipped (store : String → Option String)
    (combination : List Bundle) : Bool :=
  !(comboStatuses store combination).isEmpty &&
    (comboStatuses store combination).all (· == "simulated")

/-- The combinations the search actually simulates: the enumeration minus
the skipped ones. -/
def evaluatedCombos (store : String → Option String)
    (bundles : List Bundle) : List (List Bundle) :=
  (allCombinations bundles).filter (fun c => !comboSkipped store c)

/-- Python truthiness of the `results` value (`if results:`). -/
def resultsTruthy : Option (List TraceTx) → Bool
  | none => false
  | some l => !l.isEmpty

/-- One iteration of the search loop: skip, simulate the concatenation of
the member transaction lists, and update the running
`(optimal_combination, highest_refund)` on strict improvement. -/
def searchStep (sim : List Tx → Option (List TraceTx))
    (store : String → Option String)
    (st : Option (List Bundle) × ℚ) (combination : List Bundle) :
    Option (List Bundle) × ℚ :=
  if comboSkipped store combination then st
  else
    match sim (combination.flatMap Bundle.transactions) with
    | none => st
    | some results =>
      if results.isEmpty then st
      else
        if calculate_refund results > st.2 then
          (some combination, calculate_refund results)
        else st

/-- Model of `simulate_optimal_bundle_combinations`, starting from
`(None, 0)` and folding the loop body over the enumeration. -/
def simulate_optimal_bundle_combinations (sim : List Tx → Option (List TraceTx))
    (store : String → Option String) (bundles : List Bundle) :
    Option (List Bundle) × ℚ :=
  (allCombinations bundles).foldl (searchStep sim store) (none, 0)

/-- The refund a combination evaluates to (0 when the simulation returns
`None` or an empty list, in which case the code computes no refund). -/
def refundOf (sim : List Tx → Option (List TraceTx))
    (combination : List Bundle) : ℚ :=
  match sim (combination.flatMap Bundle.transactions) with
  | none => 0
  | some results => if results.isEmpty then 0 else calculate_refund results

/-- The maximum refund over the enumeration (0 for an empty enumeration). -/
def maxRefund (sim : List Tx → Option (List TraceTx))
    (bundles : List Bundle) : ℚ :=
  ((allCombinations bundles).map (refundOf sim)).foldl max 0

/-- The first combination in enumeration order attaining `maxRefund`. -/
def firstArgmax (sim : List Tx → Option (List TraceTx))
    (bundles : List Bundle) : Option (List Bundle) :=
  (allCombinations bundles).find? (fun c => refundOf sim c == maxRefund sim bundles)

/-- The search result as claim C2 states it: the first-encountered
combination attaining the maximum refund, with that refund
(`(none, 0)` for an empty candidate set). -/
def claimedSearchResult (sim : List Tx → Option (List TraceTx))
    (bundles : List Bundle) : Option (List Bundle) × ℚ :=
  (firstArgmax sim bundles, maxRefund sim bundles)

/-- The amended search result: as claimed when some combination has a
strictly positive refund, and `(none, 0)` otherwise (the code never
replaces the initial `(None, 0)` on a non-strict improvement). -/
def amendedSearchResult (sim : List Tx → Option (List TraceTx))
    (bundles : List Bundle) : Option (List Bundle) × ℚ :=
  if 0 < maxRefund sim bundles then claimedSearchResult sim bundles
  else (none, 0)

/-- The "size ascending, lexicographic within a size" enumeration order
on combinations of positions. -/
def sizeThenLex (a b : List ℕ) : Prop :=
  a.length < b.length ∨ (a.length = b.length ∧ List.Lex (· < ·) a b)

/-- The search enumeration on the positions `0, …, n-1` of the candidate
list. -/
def allCombinationsIdx (n : ℕ) : List (List ℕ) :=
  (List.range' 1 n).flatMap (fun r => combos (List.range n) r)

/-- C2 (counterexample). —  A single candidate bundle whose simulated
refund is `0`: every non-empty subset attains the maximum refund `0`, so
the claim demands `(some [bundle], 0)`, but the code returns its initial
`(None, 0)` because `0 > 0` fails. -/
def c2bundle : Bundle := { id := some "A", transactions := [{ hash := some "0xT" }] }

/-- The simulation used in the C2 counterexample: every call returns one
trace with no backrun-value components, hence refund `0`. -/
def c2sim : List Tx → Option (List TraceTx) := fun _ => some [{ hash := some "0xT" }]

/-- The empty persistence store (no recorded statuses). -/
def emptyStore : String → Option String := fun _ => none

/-- Bundle `A` of the C3 failing input. -/
def c3A : Bundle := { id := some "A", transactions := [{ hash := some "0xA" }] }

/-- Bundle `B` of the C3 failing input (no persistence record). -/
def c3B : Bundle := { id := some "B", transactions := [{ hash := some "0xB" }] }

/-- The store of the C3 failing input: only bundle `A` is recorded, with
status `'simulated'`; bundle `B` has no row. -/
def c3store : String → Option String :=
  fun s => if s = "A" then some "simulated" else none

/-- A candidate set of 17 bundles — one more than the cap of 16 the
specification describes as the default. -/
def bundles17 : List Bundle := List.replicate 17 {}

/-! ## C7 — sticky statuses in `simulate_bundles` (bundle_simulation.py 47-264)

The loop's external effects (RPC balance lookups, the trace call, file
I/O) are a parameter `SimEnv`; the model keeps the status reads and
writes of the two SQLite tables — `processed_transactions` keyed by
`tx_hash` alone (line 126) and `processed_bundles` keyed by `bundle_id`
for the current block (line 90) — including the writes the nested call
`simulate_transaction_bundle` makes on a successful trace response
(state_management.py 120-135): the transaction is recorded `'simulated'`
there, and `processed_bundles` rows are recorded `'success'`, once under
`tx.get('bundle_id', 'unknown')` (line 133) and, via
`update_block_state`, once under each trace result's `transactionHash`
that carries a `stateDiff` (line 348). -/

/-- Outcome of lines 134-250 of `bundle_simulation.py` for one
transaction that was not skipped.  `noWrite`: a missing `from`, a
parameter-conversion error, an error response from `trace_callMany`, an
exhausted retry loop, or a raised exception swallowed at line 211 — no
record is written.  `insufficient`: a failed balance check (line 190, or
line 74 of `state_management.py`) — the transaction is recorded
`'insufficient_balance'`.  `rpcSuccess stateDiffHashes newSimulated`: the
trace call succeeded, so `simulate_transaction_bundle` records the
transaction `'simulated'` (state_management.py 123), records `'success'`
in `processed_bundles` under each trace-result `transactionHash` with a
`stateDiff` (`stateDiffHashes`; line 348 via `update_block_state`) and
under `tx.get('bundle_id', 'unknown')` (line 133); `newSimulated` says
whether the returned result list was truthy and the refund computation
succeeded, so that lines 235-237 re-record `'simulated'` (same key, same
value) and set `any_new_transactions` — the second `update_block_state`
call at line 246 repeats the same `'success'` writes, leaving the same
state. -/
inductive TxOutcome where
  | noWrite
  | insufficient
  | rpcSuccess (stateDiffHashes : List String) (newSimulated : Bool)
deriving DecidableEq

/-- The external effects of `simulate_bundles`: the bundle-level balance
precheck of line 107 and the per-transaction processing outcome. -/
structure SimEnv where
  bundleBalanceOk : Bundle → Bool
  txOutcome : Tx → TxOutcome

/-- An `INSERT OR REPLACE` into a status table. -/
def upsert (store : String → Option String) (key status : String) :
    String → Option String :=
  fun k => if k = key then some status else store k

/-- The `processed_bundles` keys that processing `tx` writes with status
`'success'` (state_management.py 128-135): the stateDiff-bearing
trace-result hashes plus `tx.get('bundle_id', 'unknown')`, on a
successful trace call; nothing otherwise. -/
def successWriteKeys (env : SimEnv) (tx : Tx) : List String :=
  match env.txOutcome tx with
  | .rpcSuccess hs _ => hs ++ [tx.bundle_id.getD "unknown"]
  | _ => []

/-- Model of lines 117-250 for one transaction: skip on a missing hash
(line 119), skip when the recorded status is `'simulated'` (line 128),
otherwise record the outcome — on a successful trace call the
transaction is recorded `'simulated'` and the `'success'` bundle-row
writes of `simulate_transaction_bundle` are applied (result hashes
first, `tx.get('bundle_id', 'unknown')` last, matching lines 128-135 of
`state_management.py`).  The state is
`(processed_transactions, processed_bundles, any_new_transactions)`. -/
def processTx (env : SimEnv)
    (st : (String → Option String) × (String → Option String) × Bool)
    (tx : Tx) : (String → Option String) × (String → Option String) × Bool :=
  match tx.hash with
  | none => st
  | some h =>
    if st.1 h = some "simulated" then st
    else
      match env.txOutcome tx with
      | .noWrite => st
      | .insufficient => (upsert st.1 h "insufficient_balance", st.2.1, st.2.2)
      | .rpcSuccess hs newSim =>
        (upsert st.1 h "simulated",
         upsert (hs.foldl (fun bs k => upsert bs k "success") st.2.1)
           (tx.bundle_id.getD "unknown") "success",
         st.2.2 || newSim)

/-- Model of lines 84-260 for one bundle paired with its position: skip when the
bundle is recorded `'simulated'` (line 92), skip when it has no
transactions (line 100), mark every transaction `'insufficient_balance'`
when the bundle-level precheck fails (lines 107-115, with the `'unknown'`
hash fallback), otherwise run the transaction loop (which also performs
the nested `'success'` bundle-row writes) and mark the bundle
`'simulated'` if any new transaction was simulated (lines 252-257).
The state is `(processed_transactions, processed_bundles)`. -/
def processBundle (env : SimEnv)
    (st : (String → Option String) × (String → Option String))
    (ib : ℕ × Bundle) : (String → Option String) × (String → Option String) :=
  let bundle_id := ib.2.id.getD ("bundle_" ++ toString ib.1)
  if st.2 bundle_id = some "simulated" then st
  else if ib.2.transactions.isEmpty then st
  else if !env.bundleBalanceOk ib.2 then
    (ib.2.transactions.foldl
       (fun txs tx => upsert txs (tx.hash.getD "unknown") "insufficient_balance")
       st.1,
     st.2)
  else
    let r := ib.2.transactions.foldl (processTx env) (st.1, st.2, false)
    (r.1, if r.2.2 then upsert r.2.1 bundle_id "simulated" else r.2.1)

/-- Model of `simulate_bundles`: fold the per-bundle step over the indexed loaded
bundles, starting from the persisted status tables. -/
def simulate_bundles (env : SimEnv) (bundles : List Bundle)
    (txStore bundleStore : String → Option String) :
    (String → Option String) × (String → Option String) :=
  bundles.enum.foldl (processBundle env) (txStore, bundleStore)

/-- The C7 transaction whose persisted status is `'backrun_simulated'`. -/
def c7tx : Tx := { hash := some "0xT", sender := some "S" }

/-- The C7 bundle containing `c7tx`. -/
def c7bundle : Bundle := { id := some "B1", transactions := [c7tx] }

/-- C7 environment: the bundle passes the bundle-level precheck but the
transaction's own balance check fails. -/
def c7env : SimEnv :=
  { bundleBalanceOk := fun _ => true, txOutcome := fun _ => .insufficient }

/-- C7 persisted transaction table: `0xT` is recorded with the terminal
status `'backrun_simulated'`. -/
def c7txStore : String → Option String :=
  fun h => if h = "0xT" then some "backrun_simulated" else none

/-- A transaction without a `bundle_id` key, so that the `'success'`
bundle-row write of state_management.py line 133 targets the `'unknown'`
fallback key. -/
def c7tx2 : Tx := { hash := some "0xU", sender := some "S" }

/-- The bundle containing `c7tx2`. -/
def c7bundle2 : Bundle := { id := some "B2", transactions := [c7tx2] }

/-- C7 environment for the bundle-row overwrite: the balance prechecks
pass and every trace call succeeds with a truthy result list carrying no
stateDiff entries. -/
def c7env2 : SimEnv :=
  { bundleBalanceOk := fun _ => true,
    txOutcome := fun _ => .rpcSuccess [] true }

/-- C7 persisted bundle table: the row keyed `'unknown'` is recorded
`'simulated'`. -/
def c7bundleStore : String → Option String :=
  fun k => if k = "unknown" then some "simulated" else none

/-! ## C8 — RPC retry / backoff
(data_gathering.py 79-112, state_management.py 106-149)

The RPC transport is a parameter: `outcomes k` is what attempt `k`
produces.  Time is modelled by recording the argument of each
`time.sleep` call, in order; the third result component counts the RPC
calls issued. -/

/-- Outcome of one RPC attempt: success, an HTTP error with a status
code, or a non-HTTP exception. -/
inductive RpcOutcome where
  | ok
  | http (code : ℕ)
  | exc
deriving DecidableEq

/-- How `fetch_block_contents` ends: a returned block, a re-raised
non-429 HTTP error, or `None` after the loop is exhausted. -/
inductive FetchResult where
  | success
  | raised (code : ℕ)
  | uncaughtExc
  | exhausted
deriving DecidableEq

/-- The loop of `fetch_block_contents` (lines 86-112): on 429 with
retrying enabled, sleep `delay` and double it when exponential backoff is
configured; on any other HTTP error re-raise; cap the number of attempts
by the fuel.  Returns (result, sleeps in order, attempts made). -/
def fetchGo (expo enable : Bool) (outcomes : ℕ → RpcOutcome) :
    (fuel attempt delay : ℕ) → FetchResult × List ℕ × ℕ
  | 0, attempt, _ => (.exhausted, [], attempt)
  | fuel + 1, attempt, delay =>
    match outcomes attempt with
    | .ok => (.success, [], attempt + 1)
    | .http c =>
      if c = 429 then
        if enable then
          let r := fetchGo expo enable outcomes fuel (attempt + 1)
            (if expo then delay * 2 else delay)
          (r.1, delay :: r.2.1, r.2.2)
        else (.exhausted, [], attempt + 1)
      else (.raised c, [], attempt + 1)
    | .exc => (.uncaughtExc, [], attempt + 1)

/-- Model of `fetch_block_contents` with its `rate_limit_handling` configuration:
`range(retries if enable_retry else 1)` attempts, starting delay
`initial_delay_seconds`. -/
def fetch_block_contents (max_retries initial_delay : ℕ) (expo enable : Bool)
    (outcomes : ℕ → RpcOutcome) : FetchResult × List ℕ × ℕ :=
  fetchGo expo enable outcomes (if enable then max_retries else 1) 0 initial_delay

/-- How the retry loop of `simulate_transaction_bundle` ends (`None`
after the loop falls through). -/
inductive SimLoopResult where
  | success
  | raised (code : ℕ)
  | exhausted
deriving DecidableEq

/-- The retry loop of `simulate_transaction_bundle` (lines 106-149): on
429 sleep `backoff_factor ** attempt`; any other HTTP error is re-raised
(`raise e`); a non-HTTP exception is logged and the loop continues
without sleeping. -/
def simRetryGo (backoff_factor : ℕ) (outcomes : ℕ → RpcOutcome) :
    (fuel attempt : ℕ) → SimLoopResult × List ℕ × ℕ
  | 0, attempt => (.exhausted, [], attempt)
  | fuel + 1, attempt =>
    match outcomes attempt with
    | .ok => (.success, [], attempt + 1)
    | .http c =>
      if c = 429 then
        let r := simRetryGo backoff_factor outcomes fuel (attempt + 1)
        (r.1, backoff_factor ^ attempt :: r.2.1, r.2.2)
      else (.raised c, [], attempt + 1)
    | .exc =>
      let r := simRetryGo backoff_factor outcomes fuel (attempt + 1)
      (r.1, r.2.1, r.2.2)

/-- The retry loop of `simulate_transaction_bundle` with its `retries`
and `backoff_factor` parameters (defaults 3 and 2). -/
def simulate_transaction_bundle_retry (retries backoff_factor : ℕ)
    (outcomes : ℕ → RpcOutcome) : SimLoopResult × List ℕ × ℕ :=
  simRetryGo backoff_factor outcomes retries 0

/-- A transport that rate-limits every attempt. -/
def all429 : ℕ → RpcOutcome := fun _ => .http 429

/-- A transport that rate-limits the first `j` attempts and then returns
HTTP error `c`. -/
def tail429 (c j : ℕ) : ℕ → RpcOutcome :=
  fun k => if k < j then .http 429 else .http c

lemma enumLE_greedyLE_eq_selectSpecOrder :
    List.enumLE greedyLE = selectSpecOrder := by
  funext a b
  simp only [List.enumLE, greedyLE, selectSpecOrder]
  by_cases h1 : refundKey b.2 ≤ refundKey a.2
  · by_cases h2 : refundKey a.2 ≤ refundKey b.2
    · have he : refundKey a.2 = refundKey b.2 := le_antisymm h2 h1
      simp [h1, h2, he]
    · have hlt : refundKey b.2 < refundKey a.2 := not_le.mp h2
      simp [h1, h2, hlt]
  · have hlt : refundKey a.2 < refundKey b.2 := not_le.mp h1
    simp [h1, lt_asymm hlt, hlt.ne]

lemma greedy_eq_mergeSort_take (l : List Bundle) (k : ℕ) :
    greedy_bundle_selection l k = (l.mergeSort greedyLE).take k := by
  cases l with
  | nil => simp [greedy_bundle_selection]
  | cons a t => simp [greedy_bundle_selection]

lemma greedyLE_trans (a b c : Bundle) :
    greedyLE a b → greedyLE b c → greedyLE a c := by
  simp only [greedyLE, decide_eq_true_eq]
  exact fun h1 h2 => le_trans h2 h1

lemma greedyLE_total (a b : Bundle) : greedyLE a b || greedyLE b a := by
  simp only [greedyLE, Bool.or_eq_true, decide_eq_true_eq]
  exact le_total (refundKey b) (refundKey a)

lemma greedy_pairwise_key (l : List Bundle) (k : ℕ) :
    (greedy_bundle_selection l k).Pairwise
      (fun a b => refundKey b ≤ refundKey a) := by
  rw [greedy_eq_mergeSort_take]
  have hs := List.sorted_mergeSort greedyLE_trans greedyLE_total l
  have htake : List.Sublist ((l.mergeSort greedyLE).take k)
      (l.mergeSort greedyLE) := List.take_sublist k _
  exact (List.Pairwise.sublist htake hs).imp (by
    intro a b h
    simpa [greedyLE] using h)

lemma add_hex_str (s : List Char) :
    add_hex_prefix_if_missing (.str s) =
      if hexPrefix.isPrefixOf s then .str s else .str (hexPrefix ++ s) := rfl

lemma hexPrefix_isPrefixOf_append (s : List Char) :
    hexPrefix.isPrefixOf (hexPrefix ++ s) = true :=
  (List.isPrefixOf_iff_prefix).mpr (List.prefix_append _ _)

lemma combos_eq_reverse_sublistsLen {α : Type*} :
    ∀ (l : List α) (r : ℕ), combos l r = (List.sublistsLen r l).reverse := by
  intro l
  induction l with
  | nil =>
    intro r
    cases r with
    | zero => simp [combos]
    | succ r => simp [combos]
  | cons a t ih =>
    intro r
    cases r with
    | zero => simp [combos]
    | succ r =>
      rw [show combos (a :: t) (r + 1)
            = ((combos t r).map (a :: ·)) ++ combos t (r + 1) from rfl,
        ih r, ih (r + 1), List.sublistsLen_succ_cons, List.reverse_append,
        List.map_reverse]

lemma mem_combos {α : Type*} {c l : List α} {r : ℕ} :
    c ∈ combos l r ↔ List.Sublist c l ∧ c.length = r := by
  rw [combos_eq_reverse_sublistsLen, List.mem_reverse, List.mem_sublistsLen]

lemma length_combos {α : Type*} (l : List α) (r : ℕ) :
    (combos l r).length = l.length.choose r := by
  rw [combos_eq_reverse_sublistsLen, List.length_reverse, List.length_sublistsLen]

lemma nodup_combos {α : Type*} {l : List α} (r : ℕ) (h : l.Nodup) :
    (combos l r).Nodup := by
  rw [combos_eq_reverse_sublistsLen, List.nodup_reverse]
  exact List.nodup_sublistsLen r h

lemma combos_map {α β : Type*} (f : α → β) :
    ∀ (l : List α) (r : ℕ),
      combos (l.map f) r = (combos l r).map (List.map f) := by
  intro l
  induction l with
  | nil =>
    intro r
    cases r <;> simp [combos]
  | cons a t ih =>
    intro r
    cases r with
    | zero => simp [combos]
    | succ r =>
      simp only [List.map_cons, combos, ih r, ih (r + 1), List.map_append,
        List.map_map]
      congr 1

lemma range_map_getD (l : List Bundle) :
    (List.range l.length).map (fun i => l.getD i default) = l := by
  induction l with
  | nil => rfl
  | cons a t ih =>
    rw [List.length_cons, List.range_succ_eq_map, List.map_cons, List.map_map]
    simp only [List.getD_cons_zero, Function.comp]
    congr 1

lemma combos_sorted_lex :
    ∀ (l : List ℕ) (r : ℕ), l.Pairwise (· < ·) →
      (combos l r).Pairwise (List.Lex (· < ·)) := by
  intro l
  induction l with
  | nil =>
    intro r _
    cases r <;> simp [combos]
  | cons a t ih =>
    intro r hl
    cases r with
    | zero => simp [combos]
    | succ r =>
      have ht : t.Pairwise (· < ·) := hl.of_cons
      have ha : ∀ b ∈ t, a < b := fun b hb => List.rel_of_pairwise_cons hl hb
      rw [show combos (a :: t) (r + 1)
            = ((combos t r).map (a :: ·)) ++ combos t (r + 1) from rfl,
        List.pairwise_append]
      refine ⟨?_, ih (r + 1) ht, ?_⟩
      · rw [List.pairwise_map]
        exact (ih r ht).imp (fun h => List.Lex.cons h)
      · intro x hx y hy
        obtain ⟨c, hc, rfl⟩ := List.mem_map.mp hx
        cases y with
        | nil =>
          have : ([] : List ℕ).length = r + 1 := (mem_combos.mp hy).2
          simp at this
        | cons b u =>
          have hmem : b ∈ t :=
            (mem_combos.mp hy).1.subset (List.mem_cons_self b u)
          exact List.Lex.rel (ha b hmem)

lemma pairwise_allCombinationsIdx (n : ℕ) :
    (allCombinationsIdx n).Pairwise sizeThenLex := by
  rw [allCombinationsIdx, List.pairwise_flatMap]
  constructor
  · intro r _
    have h := combos_sorted_lex (List.range n) r (List.pairwise_lt_range n)
    refine h.imp_of_mem ?_
    intro a b ha hb hlex
    right
    exact ⟨by rw [(mem_combos.mp ha).2, (mem_combos.mp hb).2], hlex⟩
  · have hr : (List.range' 1 n).Pairwise (· < ·) := List.pairwise_lt_range' 1 n
    refine hr.imp_of_mem ?_
    intro r₁ r₂ _ _ hlt x hx y hy
    left
    rw [(mem_combos.mp hx).2, (mem_combos.mp hy).2]
    exact hlt

lemma mem_allCombinations {c : List Bundle} {bundles : List Bundle} :
    c ∈ allCombinations bundles ↔ List.Sublist c bundles ∧ c ≠ [] := by
  rw [allCombinations, List.mem_flatMap]
  constructor
  · rintro ⟨r, hr, hc⟩
    obtain ⟨hsub, hlen⟩ := mem_combos.mp hc
    refine ⟨hsub, ?_⟩
    intro hnil
    rw [hnil] at hlen
    have := (List.mem_range'_1).mp hr
    simp at hlen
    omega
  · rintro ⟨hsub, hne⟩
    refine ⟨c.length, ?_, mem_combos.mpr ⟨hsub, rfl⟩⟩
    rw [List.mem_range'_1]
    have h1 : 1 ≤ c.length := by
      cases c with
      | nil => exact absurd rfl hne
      | cons x t => simp
    have h2 : c.length ≤ bundles.length := hsub.length_le
    omega

lemma allCombinations_eq_map_idx (bundles : List Bundle) :
    allCombinations bundles =
      (allCombinationsIdx bundles.length).map
        (List.map (fun i => bundles.getD i default)) := by
  rw [allCombinations, allCombinationsIdx, List.map_flatMap]
  congr 1
  funext r
  rw [← combos_map, range_map_getD]

lemma le_foldl_max (h : ℚ) (l : List ℚ) : h ≤ l.foldl max h := by
  induction l generalizing h with
  | nil => exact le_refl h
  | cons x t ih => exact le_trans (le_max_left h x) (ih (max h x))

/-- The strict-improvement fold keeps the first element attaining the
running maximum: from `(o, h)` it returns the eventual maximum `m` paired
with the first element whose value is `m`, provided `m` exceeds `h`, and
`(o, h)` otherwise. -/
lemma foldl_search_argmax {α : Type*} (f : α → ℚ) :
    ∀ (cs : List α) (o : Option α) (h : ℚ),
      cs.foldl (fun st c => if f c > st.2 then (some c, f c) else st) (o, h) =
        if h < (cs.map f).foldl max h then
          ((cs.find? fun c => f c == (cs.map f).foldl max h),
            (cs.map f).foldl max h)
        else (o, h) := by
  intro cs
  induction cs with
  | nil =>
    intro o h
    simp
  | cons c t ih =>
    intro o h
    rw [List.foldl_cons, List.map_cons, List.foldl_cons]
    by_cases hfc : h < f c
    · rw [if_pos hfc, max_eq_right (le_of_lt hfc)]
      rw [ih (some c) (f c)]
      have hcm : f c ≤ (t.map f).foldl max (f c) := le_foldl_max _ _
      rw [if_pos (lt_of_lt_of_le hfc hcm)]
      by_cases hceq : f c = (t.map f).foldl max (f c)
      · rw [if_neg (not_lt_of_le (le_of_eq hceq.symm))]
        rw [List.find?_cons_of_pos t
          (show (fun x => f x == (t.map f).foldl max (f c)) c = true
            from by simpa using hceq)]
        exact congrArg (fun x => (some c, x)) hceq
      · rw [if_pos (lt_of_le_of_ne hcm hceq)]
        rw [List.find?_cons_of_neg t
          (show ¬ (fun x => f x == (t.map f).foldl max (f c)) c = true
            from by simpa using hceq)]
    · rw [if_neg hfc, max_eq_left (le_of_not_lt hfc)]
      rw [ih o h]
      by_cases hm : h < (t.map f).foldl max h
      · rw [if_pos hm, if_pos hm]
        have hne : ¬ (fun x => f x == (t.map f).foldl max h) c = true := by
          simp only [beq_iff_eq]
          intro he
          exact hfc (he ▸ hm)
        rw [List.find?_cons_of_neg t hne]
      · rw [if_neg hm, if_neg hm]

lemma searchStep_eq_pure (sim : List Tx → Option (List TraceTx))
    (store : String → Option String)
    (hskip : ∀ c, comboSkipped store c = false)
    (hsim : ∀ txs, resultsTruthy (sim txs) = true) :
    searchStep sim store = fun st c =>
      if refundOf sim c > st.2 then (some c, refundOf sim c) else st := by
  funext st c
  have ht := hsim (c.flatMap Bundle.transactions)
  cases hs : sim (c.flatMap Bundle.transactions) with
  | none => rw [hs] at ht; simp [resultsTruthy] at ht
  | some results =>
    rw [hs] at ht
    have hne : results.isEmpty = false := by
      simpa [resultsTruthy] using ht
    simp only [searchStep, refundOf, hskip c, hs, hne]
    simp

lemma list_sum_range (f : ℕ → ℕ) (n : ℕ) :
    ((List.range n).map f).sum = ∑ i ∈ Finset.range n, f i := by
  induction n with
  | zero => rfl
  | succ n ih =>
    rw [List.range_succ, List.map_append, List.sum_append,
      Finset.sum_range_succ, ih]
    simp

lemma length_allCombinations (l : List Bundle) :
    (allCombinations l).length = 2 ^ l.length - 1 := by
  rw [allCombinations, List.flatMap]
  rw [List.length_flatten, List.map_map]
  have hmap : (List.range' 1 l.length).map (List.length ∘ combos l) =
      (List.range' 1 l.length).map (fun r => l.length.choose r) :=
    List.map_congr_left (fun r _ => length_combos l r)
  rw [hmap, List.range'_eq_map_range, List.map_map]
  have hmap2 : (List.range l.length).map ((fun r => l.length.choose r) ∘ (1 + ·)) =
      (List.range l.length).map (fun i => l.length.choose (i + 1)) :=
    List.map_congr_left (fun i _ => by simp [Nat.add_comm])
  rw [hmap2, list_sum_range]
  have h1 := Nat.sum_range_choose l.length
  have h2 := Finset.sum_range_succ' (fun i => l.length.choose i) l.length
  have hc0 : l.length.choose 0 = 1 := Nat.choose_zero_right l.length
  omega

lemma processTx_tx_sticky (env : SimEnv)
    (st : (String → Option String) × (String → Option String) × Bool)
    (tx : Tx) (h : String)
    (hst : st.1 h = some "simulated") :
    (processTx env st tx).1 h = some "simulated" := by
  rw [processTx]
  cases htx : tx.hash with
  | none => exact hst
  | some k =>
    dsimp only
    by_cases hk : st.1 k = some "simulated"
    · rw [if_pos hk]
      exact hst
    · rw [if_neg hk]
      by_cases hhk : h = k
      · exact absurd (hhk ▸ hst) hk
      · cases env.txOutcome tx <;> simp [upsert, hhk, hst]

lemma foldTx_tx_sticky (env : SimEnv) (txs : List Tx) (h : String) :
    ∀ (st : (String → Option String) × (String → Option String) × Bool),
      st.1 h = some "simulated" →
      (txs.foldl (processTx env) st).1 h = some "simulated" := by
  induction txs with
  | nil => exact fun st hst => hst
  | cons tx t ih =>
    intro st hst
    rw [List.foldl_cons]
    exact ih _ (processTx_tx_sticky env st tx h hst)

lemma foldl_upsert_success_sticky (hs : List String) :
    ∀ (bs : String → Option String) (bid : String), bid ∉ hs →
      (hs.foldl (fun b k => upsert b k "success") bs) bid = bs bid := by
  induction hs with
  | nil => exact fun bs bid _ => rfl
  | cons x t ih =>
    intro bs bid hbid
    rw [List.foldl_cons,
      ih (upsert bs x "success") bid (fun hm => hbid (List.mem_cons_of_mem x hm))]
    have hx : bid ≠ x := fun he => hbid (he ▸ List.mem_cons_self x t)
    simp [upsert, hx]

lemma processTx_bstore_sticky (env : SimEnv)
    (st : (String → Option String) × (String → Option String) × Bool)
    (tx : Tx) (bid : String)
    (hst : st.2.1 bid = some "simulated")
    (hno : bid ∉ successWriteKeys env tx) :
    (processTx env st tx).2.1 bid = some "simulated" := by
  rw [processTx]
  cases htx : tx.hash with
  | none => exact hst
  | some k =>
    dsimp only
    by_cases hk : st.1 k = some "simulated"
    · rw [if_pos hk]
      exact hst
    · rw [if_neg hk]
      cases ho : env.txOutcome tx with
      | noWrite => exact hst
      | insufficient => exact hst
      | rpcSuccess hs newSim =>
        rw [successWriteKeys, ho] at hno
        have h1 : bid ≠ tx.bundle_id.getD "unknown" := fun he =>
          hno (he ▸ List.mem_append_right hs (List.mem_singleton_self _))
        have h2 : bid ∉ hs := fun hm => hno (List.mem_append_left _ hm)
        dsimp only
        simp only [upsert, if_neg h1]
        rw [foldl_upsert_success_sticky hs st.2.1 bid h2]
        exact hst

lemma foldTx_bstore_sticky (env : SimEnv) (txs : List Tx) (bid : String)
    (hno : ∀ tx ∈ txs, bid ∉ successWriteKeys env tx) :
    ∀ (st : (String → Option String) × (String → Option String) × Bool),
      st.2.1 bid = some "simulated" →
      (txs.foldl (processTx env) st).2.1 bid = some "simulated" := by
  induction txs with
  | nil => exact fun st hst => hst
  | cons tx t ih =>
    intro st hst
    rw [List.foldl_cons]
    exact ih (fun u hu => hno u (List.mem_cons_of_mem tx hu)) _
      (processTx_bstore_sticky env st tx bid hst
        (hno tx (List.mem_cons_self tx t)))

lemma processBundle_bundle_sticky (env : SimEnv)
    (st : (String → Option String) × (String → Option String))
    (ib : ℕ × Bundle) (bid : String)
    (hst : st.2 bid = some "simulated")
    (hno : ∀ tx ∈ ib.2.transactions, bid ∉ successWriteKeys env tx) :
    (processBundle env st ib).2 bid = some "simulated" := by
  rw [processBundle]
  split
  · exact hst
  · split
    · exact hst
    · split
      · exact hst
      · have hr1 : (ib.2.transactions.foldl (processTx env)
            (st.1, st.2, false)).2.1 bid = some "simulated" :=
          foldTx_bstore_sticky env ib.2.transactions bid hno (st.1, st.2, false) hst
        by_cases hr :
            (ib.2.transactions.foldl (processTx env) (st.1, st.2, false)).2.2
        · simp only [hr, if_pos]
          by_cases hb : bid = ib.2.id.getD ("bundle_" ++ toString ib.1) <;>
            simp [upsert, hb, hr1]
        · simp [hr, hr1]

lemma processBundle_tx_sticky (env : SimEnv)
    (st : (String → Option String) × (String → Option String))
    (ib : ℕ × Bundle) (h : String)
    (hst : st.1 h = some "simulated")
    (hbal : env.bundleBalanceOk ib.2 = true) :
    (processBundle env st ib).1 h = some "simulated" := by
  rw [processBundle]
  split
  · exact hst
  · split
    · exact hst
    · split
      · rename_i hb
        rw [hbal] at hb
        simp at hb
      · exact foldTx_tx_sticky env ib.2.transactions h (st.1, st.2, false) hst

lemma fetchGo_all429_expo (outcomes : ℕ → RpcOutcome)
    (h429 : ∀ k, outcomes k = .http 429) :
    ∀ (fuel attempt delay : ℕ),
      fetchGo true true outcomes fuel attempt delay =
        (.exhausted, (List.range fuel).map (fun i => delay * 2 ^ i),
          attempt + fuel) := by
  intro fuel
  induction fuel with
  | zero => intro attempt delay; simp [fetchGo]
  | succ fuel ih =>
    intro attempt delay
    rw [fetchGo, h429 attempt]
    simp only [reduceIte, ih (attempt + 1) (delay * 2),
      List.range_succ_eq_map, List.map_cons, List.map_map]
    refine congrArg (Prod.mk _) ?_
    refine congrArg₂ Prod.mk ?_ (by omega)
    refine congrArg₂ List.cons (by ring) ?_
    refine List.map_congr_left ?_
    intro i _
    show delay * 2 * 2 ^ i = delay * 2 ^ (i + 1)
    ring

lemma fetchGo_all429_const (outcomes : ℕ → RpcOutcome)
    (h429 : ∀ k, outcomes k = .http 429) :
    ∀ (fuel attempt delay : ℕ),
      fetchGo false true outcomes fuel attempt delay =
        (.exhausted, List.replicate fuel delay, attempt + fuel) := by
  intro fuel
  induction fuel with
  | zero => intro attempt delay; simp [fetchGo]
  | succ fuel ih =>
    intro attempt delay
    rw [fetchGo, h429 attempt]
    have hd : (if (false : Bool) = true then delay * 2 else delay) = delay := rfl
    simp only [reduceIte, hd, ih (attempt + 1) delay, List.replicate_succ]
    refine congrArg (Prod.mk _) ?_
    refine congrArg (Prod.mk _) ?_
    omega

lemma fetchGo_raises (c : ℕ) (hc : c ≠ 429) (outcomes : ℕ → RpcOutcome) :
    ∀ (j fuel attempt delay : ℕ),
      (∀ k, k < j → outcomes (attempt + k) = .http 429) →
      outcomes (attempt + j) = .http c → j < fuel →
      fetchGo true true outcomes fuel attempt delay =
        (.raised c, (List.range j).map (fun i => delay * 2 ^ i),
          attempt + j + 1) := by
  intro j
  induction j with
  | zero =>
    intro fuel attempt delay _ hj hfuel
    cases fuel with
    | zero => omega
    | succ fuel =>
      rw [show attempt + 0 = attempt from rfl] at hj
      rw [fetchGo, hj]
      simp only [if_neg hc]
      simp
  | succ j ih =>
    intro fuel attempt delay h429 hj hfuel
    cases fuel with
    | zero => omega
    | succ fuel =>
      have h0 : outcomes attempt = .http 429 := by
        have := h429 0 (by omega)
        simpa using this
      have hrec := ih fuel (attempt + 1) (delay * 2)
        (fun k hk => by
          have := h429 (k + 1) (by omega)
          rwa [show attempt + (k + 1) = attempt + 1 + k by omega] at this)
        (by rwa [show attempt + 1 + j = attempt + (j + 1) by omega])
        (by omega)
      rw [fetchGo, h0]
      simp only [reduceIte, hrec, List.range_succ_eq_map, List.map_cons,
        List.map_map]
      refine congrArg (Prod.mk _) ?_
      refine congrArg₂ Prod.mk ?_ (by omega)
      refine congrArg₂ List.cons (by ring) ?_
      refine List.map_congr_left ?_
      intro i _
      show delay * 2 * 2 ^ i = delay * 2 ^ (i + 1)
      ring

lemma simGo_all429 (b : ℕ) (outcomes : ℕ → RpcOutcome)
    (h429 : ∀ k, outcomes k = .http 429) :
    ∀ (fuel attempt : ℕ),
      simRetryGo b outcomes fuel attempt =
        (.exhausted, (List.range' attempt fuel).map (b ^ ·), attempt + fuel) := by
  intro fuel
  induction fuel with
  | zero => intro attempt; simp [simRetryGo]
  | succ fuel ih =>
    intro attempt
    rw [simRetryGo, h429 attempt]
    simp only [reduceIte, ih (attempt + 1), List.range'_succ, List.map_cons]
    refine congrArg (Prod.mk _) ?_
    refine congrArg (Prod.mk _) ?_
    omega

lemma simGo_raises (b c : ℕ) (hc : c ≠ 429) (outcomes : ℕ → RpcOutcome) :
    ∀ (j fuel attempt : ℕ),
      (∀ k, k < j → outcomes (attempt + k) = .http 429) →
      outcomes (attempt + j) = .http c → j < fuel →
      simRetryGo b outcomes fuel attempt =
        (.raised c, (List.range' attempt j).map (b ^ ·), attempt + j + 1) := by
  intro j
  induction j with
  | zero =>
    intro fuel attempt _ hj hfuel
    cases fuel with
    | zero => omega
    | succ fuel =>
      rw [show attempt + 0 = attempt from rfl] at hj
      rw [simRetryGo, hj]
      simp only [if_neg hc]
      simp
  | succ j ih =>
    intro fuel attempt h429 hj hfuel
    cases fuel with
    | zero => omega
    | succ fuel =>
      have h0 : outcomes attempt = .http 429 := by
        have := h429 0 (by omega)
        simpa using this
      have hrec := ih fuel (attempt + 1)
        (fun k hk => by
          have := h429 (k + 1) (by omega)
          rwa [show attempt + (k + 1) = attempt + 1 + k by omega] at this)
        (by rwa [show attempt + 1 + j = attempt + (j + 1) by omega])
        (by omega)
      rw [simRetryGo, h0]
      simp only [reduceIte, hrec, List.range'_succ, List.map_cons]
      refine congrArg (Prod.mk _) ?_
      refine congrArg (Prod.mk _) ?_
      omega

/-- C6 — the selector returns exactly the first `min(k, |bundles|)`
bundles of the list sorted by declared refund in descending order, with
ties broken by input order: it equals the spec-side `selectSpec` (sort the
position-indexed list by (refund descending, position ascending), drop
positions, take `k`), its length is `min k |bundles|`, and its output is
pairwise descending in the declared refund. -/
theorem C6_greedy_selection (l : List Bundle) (k : ℕ) :
    greedy_bundle_selection l k = selectSpec l k ∧
    (greedy_bundle_selection l k).length = min k l.length ∧
    (greedy_bundle_selection l k).Pairwise
      (fun a b => refundKey b ≤ refundKey a) := by
  refine ⟨?_, ?_, greedy_pairwise_key l k⟩
  · rw [greedy_eq_mergeSort_take]
    simp only [selectSpec]
    rw [← enumLE_greedyLE_eq_selectSpecOrder, List.mergeSort_enum]
  · rw [greedy_eq_mergeSort_take, List.length_take, List.length_mergeSort]

/-- C10. — A bundle whose dictionary lacks the `refund` key is treated
as having declared refund `0` (the selector is total on it), so in the
selector's output every bundle that follows a refund-less bundle has
declared refund ≤ 0 — equivalently, every positive-refund bundle precedes
it. -/
theorem C10_missing_refund_total (b : Bundle) (hb : b.refund = none)
    (l : List Bundle) (k : ℕ) :
    refundKey b = 0 ∧
    (greedy_bundle_selection l k).Pairwise
      (fun a c => a.refund = none → refundKey c ≤ 0) := by
  refine ⟨by simp [refundKey, hb], ?_⟩
  have h := greedy_pairwise_key l k
  exact h.imp (by
    intro a c hle ha
    have : refundKey a = 0 := by simp [refundKey, ha]
    simpa [this] using hle)

/-- Witness for `C10_missing_refund_total` at a concrete bundle list. -/
theorem C10_missing_refund_total_witness :
    ({ refund := none } : Bundle).refund = none ∧
    (refundKey { refund := none } = 0 ∧
      (greedy_bundle_selection
        [{ refund := some 5 }, { refund := none }] 2).Pairwise
        (fun a c => a.refund = none → refundKey c ≤ 0)) :=
  ⟨rfl, C10_missing_refund_total { refund := none } rfl
    [{ refund := some 5 }, { refund := none }] 2⟩

/-- C1 (code evaluation at the failing input). —  On the trace list
`[c1trace]` the code's refund — `total_backrun_value * 0.9`, a Python
`float` — is `27/10` under exact arithmetic, a non-integral value (the
actual IEEE double is `2.7000000000000002`, within `2⁻⁵⁰` of `27/10`),
whereas the spec's 256-bit `× 9 ÷ 10` truncating computation yields `2`.
The code does not compute the claimed integer value at this input. -/
theorem C1_code_eval :
    calculate_refund [c1trace] = 27 / 10 ∧
    specRefund [c1trace] = 2 ∧
    (27 / 10 : ℚ) ≠ ((specRefund [c1trace] : ℕ) : ℚ) := by
  refine ⟨?_, ?_, ?_⟩
  · norm_num [calculate_refund, total_backrun_value, txBackrunValue, c1trace]
  · decide
  · have h2 : specRefund [c1trace] = 2 := by decide
    rw [h2]
    norm_num

/-- C5. — The detector reports a violation iff
`highest_refund > actual_refund`; in that case the amount is the
difference and the missed-opportunities list consists exactly of the
bundles of the optimal combination that are not in the actual one;
otherwise it returns `(false, 0)`. -/
theorem C5_detect_violation (opt act : List Bundle) (h a : ℚ) :
    ((detect_violation opt act h a).1 = true ↔ h > a) ∧
    (h > a → detect_violation opt act h a = (true, h - a)) ∧
    (∀ b, b ∈ missed_bundles opt act ↔ b ∈ opt ∧ b ∉ act) ∧
    (¬ h > a → detect_violation opt act h a = (false, 0)) := by
  refine ⟨?_, fun hc => by simp [detect_violation, hc], fun b => ?_, fun hc => by
    simp [detect_violation, hc]⟩
  · by_cases hc : h > a <;> simp [detect_violation, hc]
  · simp [missed_bundles, List.mem_filter]

/-- Witness for `C5_detect_violation` at concrete inputs: refunds 5 vs 3
give a violation of amount 2, and the single optimal bundle is missed. -/
theorem C5_detect_violation_witness :
    detect_violation [{ id := some "X" }] [] 5 3 = (true, 2) ∧
    (∀ b, b ∈ missed_bundles [{ id := some "X" }] [] ↔
      b ∈ [({ id := some "X" } : Bundle)] ∧ b ∉ ([] : List Bundle)) := by
  have h := C5_detect_violation [{ id := some "X" }] [] 5 3
  refine ⟨?_, h.2.2.1⟩
  rw [h.2.1 (by norm_num)]
  simp only [Prod.mk.injEq]
  norm_num

/-- C9 (counterexample). —  Normalisation is not idempotent on every
input: for the integer `-1`, `hex(-1) = "-0x1"` does not start with
`0x`, so a second application prepends another prefix and changes the
value. -/
theorem C9_counterexample :
    add_hex_prefix_if_missing (add_hex_prefix_if_missing (.int (-1))) ≠
      add_hex_prefix_if_missing (.int (-1)) := by
  decide

/-- C9 (amended) — normalisation is idempotent on every string, every
non-negative integer, and every non-string non-integer value; only
negative integers (whose `hex` serialisation starts with `-`) violate
idempotence. -/
theorem C9_amended (v : PyValue) (h : ∀ n : ℤ, v = .int n → 0 ≤ n) :
    add_hex_prefix_if_missing (add_hex_prefix_if_missing v) =
      add_hex_prefix_if_missing v := by
  cases v with
  | str s =>
    rw [add_hex_str]
    by_cases hp : hexPrefix.isPrefixOf s
    · rw [if_pos hp, add_hex_str, if_pos hp]
    · rw [if_neg hp, add_hex_str, if_pos (hexPrefix_isPrefixOf_append s)]
  | int n =>
    have h0 : ¬ n < 0 := not_lt.mpr (h n rfl)
    show add_hex_prefix_if_missing (.str (pyHex n)) = .str (pyHex n)
    rw [add_hex_str]
    have hpre : hexPrefix.isPrefixOf (pyHex n) = true := by
      rw [pyHex, if_neg h0]
      exact (List.isPrefixOf_iff_prefix).mpr (List.prefix_append hexPrefix _)
    rw [if_pos hpre]
  | other => rfl

/-- Witness for `C9_amended` at the non-negative integer `5`. -/
theorem C9_amended_witness :
    (∀ n : ℤ, PyValue.int 5 = .int n → 0 ≤ n) ∧
    add_hex_prefix_if_missing (add_hex_prefix_if_missing (.int 5)) =
      add_hex_prefix_if_missing (.int 5) :=
  ⟨fun n hn => by cases hn; decide,
   C9_amended (.int 5) (fun n hn => by cases hn; decide)⟩

/-- C2 (counterexample). —  On `[c2bundle]` with refund `0` everywhere,
the code's search returns `(none, 0)` while the claimed result (first
subset attaining the maximum refund) is `(some [c2bundle], 0)`. -/
theorem C2_counterexample :
    simulate_optimal_bundle_combinations c2sim emptyStore [c2bundle] = (none, 0) ∧
    claimedSearchResult c2sim [c2bundle] = (some [c2bundle], 0) ∧
    simulate_optimal_bundle_combinations c2sim emptyStore [c2bundle] ≠
      claimedSearchResult c2sim [c2bundle] := by
  have hall : allCombinations [c2bundle] = [[c2bundle]] := rfl
  have hr : calculate_refund [({ hash := some "0xT" } : TraceTx)] = 0 := by
    have ht : total_backrun_value [({ hash := some "0xT" } : TraceTx)] = 0 := rfl
    rw [calculate_refund, ht]
    norm_num
  have hskip : comboSkipped emptyStore [c2bundle] = false := rfl
  have hcode :
      simulate_optimal_bundle_combinations c2sim emptyStore [c2bundle] = (none, 0) := by
    rw [simulate_optimal_bundle_combinations, hall, List.foldl_cons, List.foldl_nil]
    simp only [searchStep, hskip, c2sim]
    simp [hr]
  have hro : refundOf c2sim [c2bundle] = 0 := by
    simp only [refundOf, c2sim]
    simpa using hr
  have hmax : maxRefund c2sim [c2bundle] = 0 := by
    rw [maxRefund, hall]
    simp [hro]
  have hclaim : claimedSearchResult c2sim [c2bundle] = (some [c2bundle], 0) := by
    rw [claimedSearchResult, firstArgmax, hall, hmax]
    simp [hro]
  refine ⟨hcode, hclaim, ?_⟩
  rw [hcode, hclaim]
  simp

/-- C2 (amended). —  When no subset is skipped and every simulation
returns a non-empty result list, the search (i) equals the claimed
first-argmax result whenever some subset attains a strictly positive
refund, and returns `(none, 0)` otherwise — in particular `(none, 0)` for
an empty candidate set; (ii) enumerates exactly the non-empty
subsequences of the candidate list (each exactly once when the candidates
are distinct), evaluating each on the concatenation of its members'
transaction lists in order; (iii) enumerates them, viewed as position
sets, in the fixed order: size ascending, lexicographic within a size. -/
theorem C2_amended (sim : List Tx → Option (List TraceTx))
    (store : String → Option String) (bundles : List Bundle)
    (hskip : ∀ c, comboSkipped store c = false)
    (hsim : ∀ txs, resultsTruthy (sim txs) = true) :
    simulate_optimal_bundle_combinations sim store bundles =
      amendedSearchResult sim bundles ∧
    (∀ c, c ∈ allCombinations bundles ↔ List.Sublist c bundles ∧ c ≠ []) ∧
    (bundles.Nodup → (allCombinations bundles).Nodup) ∧
    allCombinations bundles =
      (allCombinationsIdx bundles.length).map
        (List.map (fun i => bundles.getD i default)) ∧
    (allCombinationsIdx bundles.length).Pairwise sizeThenLex := by
  refine ⟨?_, fun c => mem_allCombinations, ?_, allCombinations_eq_map_idx bundles,
    pairwise_allCombinationsIdx bundles.length⟩
  · rw [simulate_optimal_bundle_combinations,
      searchStep_eq_pure sim store hskip hsim,
      foldl_search_argmax (refundOf sim) (allCombinations bundles) none 0]
    rfl
  · intro hnd
    rw [allCombinations, List.nodup_flatMap]
    constructor
    · exact fun r _ => nodup_combos r hnd
    · have hr : (List.range' 1 bundles.length).Pairwise (· < ·) :=
        List.pairwise_lt_range' 1 bundles.length
      refine hr.imp_of_mem ?_
      intro r₁ r₂ _ _ hlt c hc₁ hc₂
      have h₁ := (mem_combos.mp hc₁).2
      have h₂ := (mem_combos.mp hc₂).2
      omega

/-- Witness for `C2_amended`: two candidate bundles, one simulated refund
depending on the transaction list so that the two-element combination
wins. -/
theorem C2_amended_witness :
    (∀ c, comboSkipped emptyStore c = false) ∧
    (∀ txs, resultsTruthy (c2sim txs) = true) ∧
    simulate_optimal_bundle_combinations c2sim emptyStore [c2bundle] =
      amendedSearchResult c2sim [c2bundle] := by
  have h1 : ∀ c, comboSkipped emptyStore c = false := by
    intro c
    have : comboStatuses emptyStore c = [] :=
      List.filterMap_eq_nil_iff.mpr (fun a _ => rfl)
    rw [comboSkipped, this]
    rfl
  have h2 : ∀ txs, resultsTruthy (c2sim txs) = true := fun _ => rfl
  exact ⟨h1, h2, (C2_amended c2sim emptyStore [c2bundle] h1 h2).1⟩

/-- C3 (code evaluation at the failing input). —  The subset
`{A, B}` is part of the enumeration, bundle `B` has no record at all, yet
the skip test fires — the `IN (…)` query returns only `A`'s row, the
fetched list `['simulated']` is non-empty and all-`'simulated'` — so the
search drops the subset from the combinations it simulates, although the
claim (and the code's own comment) require a subset to be skipped only
when **every** constituent is recorded as `'simulated'`. -/
theorem C3_code_eval :
    [c3A, c3B] ∈ allCombinations [c3A, c3B] ∧
    c3store "B" = none ∧
    comboSkipped c3store [c3A, c3B] = true ∧
    [c3A, c3B] ∉ evaluatedCombos c3store [c3A, c3B] := by
  refine ⟨by decide, by decide, by decide, by decide⟩

/-- C4 (code evaluation at the failing input). —  The search has no
configuration cap: on a 17-bundle candidate set (one above the
specification's default cap of 16) it does not refuse but simulates all
`2¹⁷ − 1 = 131071` non-empty subsets. -/
theorem C4_code_eval :
    bundles17.length = 17 ∧
    16 < bundles17.length ∧
    (evaluatedCombos emptyStore bundles17).length = 2 ^ 17 - 1 := by
  refine ⟨rfl, by decide, ?_⟩
  have heval : evaluatedCombos emptyStore bundles17 = allCombinations bundles17 := by
    rw [evaluatedCombos]
    refine List.filter_eq_self.mpr ?_
    intro c _
    have hc : comboStatuses emptyStore c = [] :=
      List.filterMap_eq_nil_iff.mpr (fun a _ => rfl)
    rw [comboSkipped, hc]
    rfl
  rw [heval, length_allCombinations]
  rfl

/-- C7 (counterexample). —  Two re-run overwrites the claim forbids.
First, a transaction whose persisted status is the terminal
`'backrun_simulated'` is *not* skipped — the skip test of line 128
compares against `'simulated'` only — and its record is overwritten with
`'insufficient_balance'`.  Second, a `processed_bundles` row recorded
with the terminal `'simulated'` (here keyed `'unknown'`, the
`tx.get('bundle_id', 'unknown')` fallback) is overwritten with
`'success'` by `simulate_transaction_bundle`'s per-transaction write
(state_management.py line 133) when another transaction simulates
successfully.  Both contradict the claimed stickiness of terminal
statuses and the claimed monotonicity. -/
theorem C7_counterexample :
    (c7txStore "0xT" = some "backrun_simulated" ∧
      (simulate_bundles c7env [c7bundle] c7txStore emptyStore).1 "0xT" =
        some "insufficient_balance") ∧
    (c7bundleStore "unknown" = some "simulated" ∧
      (simulate_bundles c7env2 [c7bundle2] emptyStore c7bundleStore).2 "unknown" =
        some "success") := by
  refine ⟨⟨by decide, by decide⟩, by decide, by decide⟩

/-- C7 (amended). —  Status `'simulated'` — and only it — is sticky, and
for bundle rows only away from the nested `'success'` writes: a
`processed_bundles` row recorded `'simulated'` keeps that record through
any re-run provided no transaction of a loaded bundle writes `'success'`
to that key on a successful trace call (`simulate_transaction_bundle`
writes `'success'` under `tx.get('bundle_id', 'unknown')` and under each
stateDiff-bearing trace-result hash, state_management.py 128-135); a
transaction recorded `'simulated'` keeps its record through any re-run
in which every loaded bundle passes the bundle-level balance precheck
(the precheck-failure sweep of lines 110-113 overwrites records
unconditionally).  Records in any other status — including the terminal
`'backrun_simulated'` — may be overwritten, and a `'simulated'` bundle
row hit by a `'success'` write is overwritten, as `C7_counterexample`
exhibits. -/
theorem C7_amended (env : SimEnv) (bundles : List Bundle)
    (txStore bundleStore : String → Option String) :
    (∀ bid, bundleStore bid = some "simulated" →
      (∀ b ∈ bundles, ∀ tx ∈ b.transactions, bid ∉ successWriteKeys env tx) →
      (simulate_bundles env bundles txStore bundleStore).2 bid =
        some "simulated") ∧
    (∀ h, txStore h = some "simulated" →
      (∀ b ∈ bundles, env.bundleBalanceOk b = true) →
      (simulate_bundles env bundles txStore bundleStore).1 h =
        some "simulated") := by
  constructor
  · intro bid hbid hno
    rw [simulate_bundles]
    have key : ∀ (l : List (ℕ × Bundle)),
        (∀ p ∈ l, ∀ tx ∈ p.2.transactions, bid ∉ successWriteKeys env tx) →
        ∀ (st : (String → Option String) × (String → Option String)),
        st.2 bid = some "simulated" →
        (l.foldl (processBundle env) st).2 bid = some "simulated" := by
      intro l
      induction l with
      | nil => exact fun _ st hst => hst
      | cons ib t ih =>
        intro hn st hst
        rw [List.foldl_cons]
        exact ih (fun p hp => hn p (List.mem_cons_of_mem ib hp)) _
          (processBundle_bundle_sticky env st ib bid hst
            (hn ib (List.mem_cons_self ib t)))
    refine key bundles.enum ?_ (txStore, bundleStore) hbid
    intro p hp
    refine hno p.2 ?_
    have : p.2 ∈ bundles.enum.map Prod.snd := List.mem_map_of_mem Prod.snd hp
    rwa [List.enum_map_snd] at this
  · intro h hh hbal
    rw [simulate_bundles]
    have key : ∀ (l : List (ℕ × Bundle)),
        (∀ p ∈ l, env.bundleBalanceOk p.2 = true) →
        ∀ (st : (String → Option String) × (String → Option String)),
        st.1 h = some "simulated" →
        (l.foldl (processBundle env) st).1 h = some "simulated" := by
      intro l
      induction l with
      | nil => exact fun _ st hst => hst
      | cons ib t ih =>
        intro hb st hst
        rw [List.foldl_cons]
        exact ih (fun p hp => hb p (List.mem_cons_of_mem ib hp)) _
          (processBundle_tx_sticky env st ib h hst
            (hb ib (List.mem_cons_self ib t)))
    refine key bundles.enum ?_ (txStore, bundleStore) hh
    intro p hp
    refine hbal p.2 ?_
    have : p.2 ∈ bundles.enum.map Prod.snd := List.mem_map_of_mem Prod.snd hp
    rwa [List.enum_map_snd] at this

/-- Witness for `C7_amended`: one already-`'simulated'` transaction and
one already-`'simulated'` bundle survive a re-run unchanged. -/
theorem C7_amended_witness :
    ((fun h => if h = "0xS" then some "simulated" else none) "0xS" =
        some "simulated") ∧
    (∀ b ∈ [c7bundle], SimEnv.bundleBalanceOk c7env b = true) ∧
    (simulate_bundles c7env [c7bundle]
        (fun h => if h = "0xS" then some "simulated" else none)
        (fun bid => if bid = "B9" then some "simulated" else none)).1 "0xS" =
      some "simulated" ∧
    (∀ b ∈ [c7bundle], ∀ tx ∈ Bundle.transactions b,
      "B9" ∉ successWriteKeys c7env tx) ∧
    (simulate_bundles c7env [c7bundle]
        (fun h => if h = "0xS" then some "simulated" else none)
        (fun bid => if bid = "B9" then some "simulated" else none)).2 "B9" =
      some "simulated" := by
  have hb : ∀ b ∈ [c7bundle], SimEnv.bundleBalanceOk c7env b = true := by
    intro b _
    rfl
  have hno : ∀ b ∈ [c7bundle], ∀ tx ∈ Bundle.transactions b,
      "B9" ∉ successWriteKeys c7env tx := by
    intro b _ tx _
    simp [successWriteKeys, c7env]
  refine ⟨rfl, hb, ?_, hno, ?_⟩
  · exact (C7_amended c7env [c7bundle] _ _).2 "0xS" rfl hb
  · exact (C7_amended c7env [c7bundle] _ _).1 "B9" rfl hno

/-- C8. —  The retry policy: on persistent 429 with exponential backoff
the `k`-th sleep is `initial_delay × 2^k` (a constant `initial_delay`
otherwise), the loop issues at most `max_retries` RPC calls and then
gives up; a non-429 HTTP error after `j` rate-limited attempts surfaces
immediately — exactly `j + 1` calls, no further retry.  The same holds
for `simulate_transaction_bundle`'s loop, whose sleeps are
`backoff_factor ^ attempt` (initial delay `backoff_factor⁰ = 1`, always
exponential). -/
theorem C8_retry_policy (max_retries initial_delay c j : ℕ)
    (outcomes : ℕ → RpcOutcome) (hc : c ≠ 429) :
    ((∀ k, outcomes k = .http 429) →
      fetch_block_contents max_retries initial_delay true true outcomes =
        (.exhausted, (List.range max_retries).map (fun i => initial_delay * 2 ^ i),
          max_retries)) ∧
    ((∀ k, outcomes k = .http 429) →
      fetch_block_contents max_retries initial_delay false true outcomes =
        (.exhausted, List.replicate max_retries initial_delay, max_retries)) ∧
    ((∀ k, k < j → outcomes k = .http 429) → outcomes j = .http c →
      j < max_retries →
      fetch_block_contents max_retries initial_delay true true outcomes =
        (.raised c, (List.range j).map (fun i => initial_delay * 2 ^ i), j + 1)) ∧
    ((∀ k, outcomes k = .http 429) →
      simulate_transaction_bundle_retry max_retries 2 outcomes =
        (.exhausted, (List.range' 0 max_retries).map ((2 : ℕ) ^ ·), max_retries)) ∧
    ((∀ k, k < j → outcomes k = .http 429) → outcomes j = .http c →
      j < max_retries →
      simulate_transaction_bundle_retry max_retries 2 outcomes =
        (.raised c, (List.range' 0 j).map ((2 : ℕ) ^ ·), j + 1)) := by
  refine ⟨?_, ?_, ?_, ?_, ?_⟩
  · intro h429
    rw [fetch_block_contents, if_pos rfl,
      fetchGo_all429_expo outcomes h429 max_retries 0 initial_delay]
    simp
  · intro h429
    rw [fetch_block_contents, if_pos rfl,
      fetchGo_all429_const outcomes h429 max_retries 0 initial_delay]
    simp
  · intro h429 hj hlt
    rw [fetch_block_contents, if_pos rfl,
      fetchGo_raises c hc outcomes j max_retries 0 initial_delay
        (fun k hk => by simpa using h429 k hk) (by simpa using hj) hlt]
    simp
  · intro h429
    rw [simulate_transaction_bundle_retry,
      simGo_all429 2 outcomes h429 max_retries 0]
    simp
  · intro h429 hj hlt
    rw [simulate_transaction_bundle_retry,
      simGo_raises 2 c hc outcomes j max_retries 0
        (fun k hk => by simpa using h429 k hk) (by simpa using hj) hlt]
    simp

/-- Witness for `C8_retry_policy` at `max_retries = 3`,
`initial_delay = 5`, and two concrete transports: always-429 and
429-then-500. -/
theorem C8_retry_policy_witness :
    fetch_block_contents 3 5 true true all429 = (.exhausted, [5, 10, 20], 3) ∧
    fetch_block_contents 3 5 false true all429 = (.exhausted, [5, 5, 5], 3) ∧
    fetch_block_contents 3 5 true true (tail429 500 1) = (.raised 500, [5], 2) ∧
    simulate_transaction_bundle_retry 3 2 all429 = (.exhausted, [1, 2, 4], 3) ∧
    simulate_transaction_bundle_retry 3 2 (tail429 500 1) =
      (.raised 500, [1], 2) := by
  obtain ⟨a1, b1, -, d1, -⟩ :=
    C8_retry_policy 3 5 500 1 all429 (by norm_num)
  obtain ⟨-, -, c2, -, e2⟩ :=
    C8_retry_policy 3 5 500 1 (tail429 500 1) (by norm_num)
  refine ⟨?_, ?_, ?_, ?_, ?_⟩
  · rw [a1 (fun k => rfl)]; decide
  · rw [b1 (fun k => rfl)]; decide
  · rw [c2 (by decide) (by decide) (by decide)]; decide
  · rw [d1 (fun k => rfl)]; decide
  · rw [e2 (by decide) (by decide) (by decide)]; decide

end MEVGuard

